import Mathlib

/-!
Verification of the secondary-index layer of openchain/ledger
(file openchain/ledger/blockchain_indexes.go).

Conventions of the embedding:
- Go byte slices and Go strings are modelled as `List Nat`, each element a
  byte value below 256 (Go strings are byte sequences; the literals that
  occur are pure ASCII, so the bytes coincide with the character codes).
- Go uint64 arithmetic is modelled on `Nat` with explicit `% 2 ^ 64`
  wherever the Go computation can wrap.
- A Go function returning `(T, error)` is modelled as `Except E T`;
  a Go function returning only `error` is modelled as `Option String`
  (`none` is the nil error).
-/

/-! ### Varint primitives (github.com/golang/protobuf/proto)

`proto.EncodeVarint`:
```go
for n = 0; x > 127; n++ { buf[n] = 0x80 | uint8(x&0x7F); x >>= 7 }
buf[n] = uint8(x); n++
return buf[0:n]
```
`Buffer.EncodeVarint` appends exactly the same bytes to the buffer.
-/

def encodeVarint (x : Nat) : List Nat :=
  if h : 127 < x then (0x80 ||| (x &&& 0x7F)) :: encodeVarint (x >>> 7)
  else [x]
decreasing_by
  simp only [Nat.shiftRight_eq_div_pow]
  exact Nat.div_lt_self (by omega) (by norm_num)

/-- Loop body of `proto.DecodeVarint`.  The Go original walks `buf[n]`
for `n = 0, 1, ...`; here the already-consumed portion of the buffer is
dropped from the list while `n` counts the consumed bytes:
```go
for shift := uint(0); shift < 64; shift += 7 {
    if n >= len(buf) { return 0, 0 }
    b := uint64(buf[n]); n++
    x |= (b & 0x7F) << shift
    if (b & 0x80) == 0 { return x, n }
}
return 0, 0
```
The returned count `n` is 0 exactly when decoding failed. -/
def decodeVarintAux : List Nat → Nat → Nat → Nat → Nat × Nat
  | buf, shift, n, x =>
    if shift < 64 then
      match buf with
      | [] => (0, 0)
      | b :: rest =>
        let x1 := x ||| ((b &&& 0x7F) <<< shift % 2 ^ 64)
        if b &&& 0x80 == 0 then (x1, n + 1)
        else decodeVarintAux rest (shift + 7) (n + 1) x1
    else (0, 0)

def decodeVarint (buf : List Nat) : Nat × Nat :=
  decodeVarintAux buf 0 0 0

/-- Error values produced by `Buffer.DecodeVarint`: `io.ErrUnexpectedEOF`
when the buffer runs out, `errOverflow` after ten continuation bytes. -/
inductive DecodeErr where
  | unexpectedEOF
  | overflow
deriving DecidableEq, Repr

/-- Loop body of `Buffer.DecodeVarint`; instead of the buffer index the
remaining buffer suffix is carried and returned on success:
```go
for shift := uint(0); shift < 64; shift += 7 {
    if i >= l { err = io.ErrUnexpectedEOF; return }
    b := p.buf[i]; i++
    x |= (uint64(b) & 0x7F) << shift
    if b < 0x80 { p.index = i; return }
}
err = errOverflow; return
```
-/
def bufferDecodeVarintAux : List Nat → Nat → Nat → Except DecodeErr (Nat × List Nat)
  | buf, shift, x =>
    if shift < 64 then
      match buf with
      | [] => Except.error DecodeErr.unexpectedEOF
      | b :: rest =>
        let x1 := x ||| ((b &&& 0x7F) <<< shift % 2 ^ 64)
        if b < 0x80 then Except.ok (x1, rest)
        else bufferDecodeVarintAux rest (shift + 7) x1
    else Except.error DecodeErr.overflow

def bufferDecodeVarint (buf : List Nat) : Except DecodeErr (Nat × List Nat) :=
  bufferDecodeVarintAux buf 0 0

/-- `Buffer.EncodeRawBytes`: varint length followed by the raw bytes. -/
def encodeRawBytes (b : List Nat) : List Nat :=
  encodeVarint b.length ++ b

/-! ### Key prefixes and codec functions of blockchain_indexes.go -/

def prefixBlockHashKey : Nat := 1
def prefixTxGUIDKey : Nat := 2
def prefixAddressBlockNumCompositeKey : Nat := 3

def prependKeyPrefix (pfx : Nat) (key : List Nat) : List Nat :=
  let modifiedKey : List Nat := []
  let modifiedKey := modifiedKey ++ [pfx]
  let modifiedKey := modifiedKey ++ key
  modifiedKey

def encodeBlockNumber (blockNumber : Nat) : List Nat :=
  encodeVarint blockNumber

/-- `decodeBlockNumber` in Go reads
`blockNumber, _ = proto.DecodeVarint(blockNumberBytes)`:
the second return of `DecodeVarint` (the consumed-byte count, 0 on
failure) is discarded. -/
def decodeBlockNumber (blockNumberBytes : List Nat) : Nat :=
  (decodeVarint blockNumberBytes).1

/-- `encodeBlockNumTxIndex` writes two varints into a fresh
`proto.Buffer`; the buffer content is the concatenation of the two
varint encodings. -/
def encodeBlockNumTxIndex (blockNumber : Nat) (txIndexInBlock : Nat) : List Nat :=
  (([] : List Nat) ++ encodeVarint blockNumber) ++ encodeVarint txIndexInBlock

/-- `decodeBlockNumTxIndex` reads two successive varints through
`Buffer.DecodeVarint`, returning the first error encountered. -/
def decodeBlockNumTxIndex (bytes : List Nat) : Except DecodeErr (Nat × Nat) :=
  match bufferDecodeVarint bytes with
  | Except.error e => Except.error e
  | Except.ok (blockNum, rest) =>
    match bufferDecodeVarint rest with
    | Except.error e => Except.error e
    | Except.ok (txIndex, _) => Except.ok (blockNum, txIndex)

def encodeBlockHashKey (blockHash : List Nat) : List Nat :=
  prependKeyPrefix prefixBlockHashKey blockHash

def encodeTxGUIDKey (guidBytes : List Nat) : List Nat :=
  prependKeyPrefix prefixTxGUIDKey guidBytes

/-- `encodeAddressBlockNumCompositeKey` builds a `proto.Buffer` seeded
with the family prefix byte, then appends `EncodeRawBytes(address)` and
`EncodeVarint(blockNumber)`. -/
def encodeAddressBlockNumCompositeKey (address : List Nat) (blockNumber : Nat) : List Nat :=
  ([prefixAddressBlockNumCompositeKey] ++ encodeRawBytes address) ++ encodeVarint blockNumber

/-- `encodeListTxIndexes` appends one varint per list element into a
fresh buffer, in order. -/
def encodeListTxIndexes (listTx : List Nat) : List Nat :=
  listTx.foldl (fun b i => b ++ encodeVarint i) []

/-! ### Unfolding lemmas for `encodeVarint` -/

theorem encodeVarint_of_le {x : Nat} (h : x ≤ 127) : encodeVarint x = [x] := by
  rw [encodeVarint]
  simp [Nat.not_lt.mpr h]

theorem encodeVarint_of_gt {x : Nat} (h : 127 < x) :
    encodeVarint x = (0x80 ||| (x &&& 0x7F)) :: encodeVarint (x >>> 7) := by
  rw [encodeVarint]
  simp [h]

/-! ### Arithmetic facts about the bit operations used by the codec -/

/-- Or-ing a value below `2 ^ s` with a multiple of `2 ^ s` is addition:
the two operands occupy disjoint bit ranges. -/
theorem lor_mul_two_pow (s a b : Nat) (h : a < 2 ^ s) :
    a ||| b * 2 ^ s = a + b * 2 ^ s := by
  induction s generalizing a b with
  | zero =>
    have ha : a = 0 := by omega
    subst ha
    simp
  | succ s ih =>
    have hpow : 2 ^ (s + 1) = 2 ^ s * 2 := pow_succ 2 s
    rw [hpow] at h ⊢
    have hmulassoc : b * (2 ^ s * 2) = b * 2 ^ s * 2 := by ring
    have hdiv : (a ||| b * (2 ^ s * 2)) / 2 = a / 2 + b * 2 ^ s := by
      rw [Nat.or_div_two]
      have h1 : b * (2 ^ s * 2) / 2 = b * 2 ^ s := by
        rw [hmulassoc]
        exact Nat.mul_div_cancel _ (by norm_num)
      rw [h1]
      exact ih (a / 2) b (by omega)
    have hb0 : b * (2 ^ s * 2) % 2 = 0 := by
      rw [hmulassoc]
      exact Nat.mul_mod_left _ 2
    have hmod : (a ||| b * (2 ^ s * 2)) % 2 = a % 2 := by
      rcases Nat.mod_two_eq_zero_or_one a with h0 | h1
      · have hne : ¬ (a ||| b * (2 ^ s * 2)) % 2 = 1 := by
          rw [Nat.or_mod_two_eq_one]
          omega
        omega
      · have heq : (a ||| b * (2 ^ s * 2)) % 2 = 1 := by
          rw [Nat.or_mod_two_eq_one]
          omega
        omega
    have hfull := Nat.div_add_mod (a ||| b * (2 ^ s * 2)) 2
    have ha := Nat.div_add_mod a 2
    have hbb : b * (2 ^ s * 2) = 2 * (b * 2 ^ s) := by ring
    omega

theorem and_127_eq_mod (x : Nat) : x &&& 127 = x % 128 := by
  have h := Nat.and_pow_two_sub_one_eq_mod x 7
  norm_num at h
  exact h

theorem and_128_of_lt {b : Nat} (h : b < 128) : b &&& 128 = 0 := by
  have h1 : (128 : Nat) = 2 ^ 7 := by norm_num
  rw [h1, Nat.and_two_pow]
  have h2 : b.testBit 7 = false :=
    Nat.testBit_lt_two_pow (lt_of_lt_of_le h (by norm_num))
  rw [h2]
  simp

theorem and_128_of_ge {b : Nat} (h1 : 128 ≤ b) (h2 : b < 256) : b &&& 128 = 128 := by
  have he : (128 : Nat) = 2 ^ 7 := by norm_num
  rw [he, Nat.and_two_pow]
  have h3 : b.testBit 7 = true := by
    rw [Nat.testBit_to_div_mod]
    norm_num
    omega
  rw [h3]
  simp

theorem lor_128 {r : Nat} (h : r < 128) : 128 ||| r = 128 + r := by
  have h1 : (128 : Nat) ||| r = r ||| 128 := Nat.lor_comm _ _
  have h2 : r ||| 1 * 2 ^ 7 = r + 1 * 2 ^ 7 :=
    lor_mul_two_pow 7 r 1 (lt_of_lt_of_le h (by norm_num))
  norm_num at h2
  omega

theorem mul_pow_lt (t : Nat) {r s : Nat} (hr : r < 2 ^ t) (hst : t + s ≤ 64) :
    r * 2 ^ s < 2 ^ 64 := by
  have h1 : r * 2 ^ s < 2 ^ t * 2 ^ s :=
    (Nat.mul_lt_mul_right (Nat.two_pow_pos s)).mpr hr
  have h2 : (2 : Nat) ^ t * 2 ^ s = 2 ^ (t + s) := (pow_add 2 t s).symm
  have h3 : (2 : Nat) ^ (t + s) ≤ 2 ^ 64 := Nat.pow_le_pow_right (by norm_num) hst
  omega

/-- The continuation byte written by `encodeVarint` for `127 < x`. -/
theorem contByte_eq {x : Nat} : 0x80 ||| (x &&& 0x7F) = 128 + x % 128 := by
  rw [and_127_eq_mod]
  exact lor_128 (Nat.mod_lt x (by norm_num))

/-! ### Single-step unfolding of the decoder loops -/

theorem bufferDecodeVarintAux_cons (b : Nat) (rest : List Nat) (shift x : Nat)
    (h : shift < 64) :
    bufferDecodeVarintAux (b :: rest) shift x =
      if b < 0x80 then Except.ok (x ||| ((b &&& 0x7F) <<< shift % 2 ^ 64), rest)
      else bufferDecodeVarintAux rest (shift + 7) (x ||| ((b &&& 0x7F) <<< shift % 2 ^ 64)) := by
  rw [bufferDecodeVarintAux]
  simp [h]

theorem decodeVarintAux_cons (b : Nat) (rest : List Nat) (shift n x : Nat)
    (h : shift < 64) :
    decodeVarintAux (b :: rest) shift n x =
      if b &&& 0x80 == 0 then (x ||| ((b &&& 0x7F) <<< shift % 2 ^ 64), n + 1)
      else decodeVarintAux rest (shift + 7) (n + 1) (x ||| ((b &&& 0x7F) <<< shift % 2 ^ 64)) := by
  rw [decodeVarintAux]
  simp [h]

/-! ### Round trip of the varint codec -/

theorem bufferDecodeVarintAux_encode (x : Nat) :
    ∀ (shift acc : Nat) (rest : List Nat), shift < 64 → acc < 2 ^ shift →
      x < 2 ^ (64 - shift) →
      bufferDecodeVarintAux (encodeVarint x ++ rest) shift acc =
        Except.ok (acc + x * 2 ^ shift, rest) := by
  induction x using Nat.strong_induction_on with
  | _ x ih =>
    intro shift acc rest hshift hacc hx
    by_cases h : 127 < x
    · -- a continuation byte followed by the encoding of x >>> 7
      have hs57 : shift < 57 := by
        by_contra hs
        push_neg at hs
        have hle : (2 : Nat) ^ (64 - shift) ≤ 2 ^ 7 :=
          Nat.pow_le_pow_right (by norm_num) (by omega)
        norm_num at hle
        omega
      rw [encodeVarint_of_gt h, contByte_eq, List.cons_append,
        bufferDecodeVarintAux_cons _ _ _ _ hshift]
      rw [if_neg (by omega : ¬ 128 + x % 128 < 0x80)]
      have hand : (128 + x % 128) &&& 0x7F = x % 128 := by
        rw [and_127_eq_mod]
        omega
      have hsl : (x % 128) <<< shift = x % 128 * 2 ^ shift := Nat.shiftLeft_eq _ _
      have hlt64 : x % 128 * 2 ^ shift < 2 ^ 64 :=
        mul_pow_lt 7 (lt_of_lt_of_le (Nat.mod_lt x (by norm_num)) (by norm_num)) (by omega)
      have hacc1 : acc ||| x % 128 * 2 ^ shift = acc + x % 128 * 2 ^ shift :=
        lor_mul_two_pow shift acc (x % 128) hacc
      rw [hand, hsl, Nat.mod_eq_of_lt hlt64, hacc1]
      have hrec7 : x >>> 7 = x / 128 := by
        rw [Nat.shiftRight_eq_div_pow]
      rw [hrec7]
      have hp : (2 : Nat) ^ (shift + 7) = 2 ^ shift * 128 := by
        rw [pow_add]
        norm_num
      have hm : x % 128 * 2 ^ shift ≤ 127 * 2 ^ shift :=
        Nat.mul_le_mul (by omega) (Nat.le_refl _)
      have hxdiv : x / 128 < 2 ^ (64 - (shift + 7)) := by
        have he : 64 - shift = (64 - (shift + 7)) + 7 := by omega
        rw [he] at hx
        have hq : (2 : Nat) ^ ((64 - (shift + 7)) + 7) = 2 ^ (64 - (shift + 7)) * 128 := by
          rw [pow_add]
          norm_num
        omega
      rw [ih (x / 128) (Nat.div_lt_self (by omega) (by norm_num)) (shift + 7)
        (acc + x % 128 * 2 ^ shift) rest (by omega) (by omega) hxdiv]
      have hsum : acc + x % 128 * 2 ^ shift + x / 128 * 2 ^ (shift + 7) =
          acc + x * 2 ^ shift := by
        rw [hp]
        have hx128 : x % 128 + 128 * (x / 128) = x := Nat.mod_add_div x 128
        calc acc + x % 128 * 2 ^ shift + x / 128 * (2 ^ shift * 128)
            = acc + (x % 128 + 128 * (x / 128)) * 2 ^ shift := by ring
          _ = acc + x * 2 ^ shift := by rw [hx128]
      rw [hsum]
    · -- a single terminating byte
      rw [encodeVarint_of_le (Nat.le_of_not_lt h), List.singleton_append,
        bufferDecodeVarintAux_cons _ _ _ _ hshift]
      rw [if_pos (by omega : x < 0x80)]
      have hand : x &&& 0x7F = x := by
        rw [and_127_eq_mod]
        omega
      have hsl : x <<< shift = x * 2 ^ shift := Nat.shiftLeft_eq _ _
      have hlt64 : x * 2 ^ shift < 2 ^ 64 := mul_pow_lt (64 - shift) hx (by omega)
      rw [hand, hsl, Nat.mod_eq_of_lt hlt64, lor_mul_two_pow shift acc x hacc]

theorem decodeVarintAux_encode (x : Nat) :
    ∀ (shift n acc : Nat) (rest : List Nat), shift < 64 → acc < 2 ^ shift →
      x < 2 ^ (64 - shift) →
      ∃ m, decodeVarintAux (encodeVarint x ++ rest) shift n acc =
        (acc + x * 2 ^ shift, m) := by
  induction x using Nat.strong_induction_on with
  | _ x ih =>
    intro shift n acc rest hshift hacc hx
    by_cases h : 127 < x
    · have hs57 : shift < 57 := by
        by_contra hs
        push_neg at hs
        have hle : (2 : Nat) ^ (64 - shift) ≤ 2 ^ 7 :=
          Nat.pow_le_pow_right (by norm_num) (by omega)
        norm_num at hle
        omega
      rw [encodeVarint_of_gt h, contByte_eq, List.cons_append,
        decodeVarintAux_cons _ _ _ _ _ hshift]
      have hc : (128 + x % 128) &&& 0x80 = 128 :=
        and_128_of_ge (by omega) (by omega)
      rw [hc]
      rw [if_neg (by norm_num)]
      have hand : (128 + x % 128) &&& 0x7F = x % 128 := by
        rw [and_127_eq_mod]
        omega
      have hsl : (x % 128) <<< shift = x % 128 * 2 ^ shift := Nat.shiftLeft_eq _ _
      have hlt64 : x % 128 * 2 ^ shift < 2 ^ 64 :=
        mul_pow_lt 7 (lt_of_lt_of_le (Nat.mod_lt x (by norm_num)) (by norm_num)) (by omega)
      have hacc1 : acc ||| x % 128 * 2 ^ shift = acc + x % 128 * 2 ^ shift :=
        lor_mul_two_pow shift acc (x % 128) hacc
      rw [hand, hsl, Nat.mod_eq_of_lt hlt64, hacc1]
      have hrec7 : x >>> 7 = x / 128 := by
        rw [Nat.shiftRight_eq_div_pow]
      rw [hrec7]
      have hp : (2 : Nat) ^ (shift + 7) = 2 ^ shift * 128 := by
        rw [pow_add]
        norm_num
      have hm : x % 128 * 2 ^ shift ≤ 127 * 2 ^ shift :=
        Nat.mul_le_mul (by omega) (Nat.le_refl _)
      have hxdiv : x / 128 < 2 ^ (64 - (shift + 7)) := by
        have he : 64 - shift = (64 - (shift + 7)) + 7 := by omega
        rw [he] at hx
        have hq : (2 : Nat) ^ ((64 - (shift + 7)) + 7) = 2 ^ (64 - (shift + 7)) * 128 := by
          rw [pow_add]
          norm_num
        omega
      obtain ⟨m, hrec⟩ := ih (x / 128) (Nat.div_lt_self (by omega) (by norm_num)) (shift + 7)
        (n + 1) (acc + x % 128 * 2 ^ shift) rest (by omega) (by omega) hxdiv
      refine ⟨m, ?_⟩
      rw [hrec]
      have hsum : acc + x % 128 * 2 ^ shift + x / 128 * 2 ^ (shift + 7) =
          acc + x * 2 ^ shift := by
        rw [hp]
        have hx128 : x % 128 + 128 * (x / 128) = x := Nat.mod_add_div x 128
        calc acc + x % 128 * 2 ^ shift + x / 128 * (2 ^ shift * 128)
            = acc + (x % 128 + 128 * (x / 128)) * 2 ^ shift := by ring
          _ = acc + x * 2 ^ shift := by rw [hx128]
      rw [hsum]
    · refine ⟨n + 1, ?_⟩
      rw [encodeVarint_of_le (Nat.le_of_not_lt h), List.singleton_append,
        decodeVarintAux_cons _ _ _ _ _ hshift]
      have hc : x &&& 0x80 = 0 := and_128_of_lt (by omega)
      rw [hc]
      rw [if_pos (by norm_num)]
      have hand : x &&& 0x7F = x := by
        rw [and_127_eq_mod]
        omega
      have hsl : x <<< shift = x * 2 ^ shift := Nat.shiftLeft_eq _ _
      have hlt64 : x * 2 ^ shift < 2 ^ 64 := mul_pow_lt (64 - shift) hx (by omega)
      rw [hand, hsl, Nat.mod_eq_of_lt hlt64, lor_mul_two_pow shift acc x hacc]

/-- When `proto.DecodeVarint` reports failure (consumed count 0), the
value it returns is 0 as well: both failure exits return the pair
`(0, 0)`. -/
theorem decodeVarintAux_snd_zero :
    ∀ (buf : List Nat) (shift n acc : Nat),
      (decodeVarintAux buf shift n acc).2 = 0 →
      decodeVarintAux buf shift n acc = (0, 0) := by
  intro buf
  induction buf with
  | nil =>
    intro shift n acc hsnd
    rw [decodeVarintAux]
    split
    · rfl
    · rfl
  | cons b rest ih =>
    intro shift n acc hsnd
    by_cases hshift : shift < 64
    · rw [decodeVarintAux_cons _ _ _ _ _ hshift] at hsnd ⊢
      by_cases hb : b &&& 0x80 == 0
      · rw [if_pos hb] at hsnd
        simp at hsnd
      · rw [if_neg hb] at hsnd ⊢
        exact ih _ _ _ hsnd
    · rw [decodeVarintAux]
      rw [if_neg hshift]

theorem bufferDecodeVarint_encode {x : Nat} (hx : x < 2 ^ 64) (rest : List Nat) :
    bufferDecodeVarint (encodeVarint x ++ rest) = Except.ok (x, rest) := by
  have h := bufferDecodeVarintAux_encode x 0 0 rest (by norm_num) (by norm_num)
    (by simpa using hx)
  simpa using h

theorem decodeVarint_encode {x : Nat} (hx : x < 2 ^ 64) :
    (decodeVarint (encodeVarint x)).1 = x := by
  obtain ⟨m, hm⟩ := decodeVarintAux_encode x 0 0 0 [] (by norm_num) (by norm_num)
    (by simpa using hx)
  rw [decodeVarint, show encodeVarint x = encodeVarint x ++ [] from (List.append_nil _).symm,
    hm]
  simp

/-! ### The block and transaction records

The package `protos` of this repository is not part of the sources given
here; the records below are modelled from the spec. -/

/-- Modelled from the spec: the transaction type is enumerated and the
two deployment variants `CHAINLET_NEW` and `CHAINLET_UPDATE` are
distinguishable from every other type. -/
inductive TxType where
  | CHAINLET_NEW
  | CHAINLET_UPDATE
  | other
deriving DecidableEq, Repr

/-- Modelled from the spec: the deployed-unit (chainlet) identifier is
an opaque record; only its identity matters here. -/
structure ChainletID where
  ident : Nat
deriving DecidableEq, Repr

/-- Modelled from the spec: a transaction carries an identifier, an
executing address, a type, and a deployed-unit identifier.  The
reference accessors below read only `type` and `chainletID`; the other
fields stand for the rest of the record. -/
structure Transaction where
  guid : List Nat
  executingAddress : List Nat
  type : TxType
  chainletID : ChainletID
deriving DecidableEq, Repr

/-- Modelled from the spec: a block is an ordered sequence of
transactions (`block.GetTransactions()`). -/
structure Block where
  transactions : List Transaction
deriving DecidableEq, Repr

/-- Byte sequence of an ASCII string literal (for ASCII the UTF-8 bytes
of a Go string are the character codes). -/
def strBytes (s : String) : List Nat :=
  s.data.map Char.toNat

/-- `getTxGUIDBytes` is a placeholder in the reference: it ignores the
transaction and returns the fixed bytes of "TODO:Fetch guid from Tx". -/
def getTxGUIDBytes (tx : Transaction) : List Nat :=
  strBytes "TODO:Fetch guid from Tx"

/-- `getTxExecutingAddress` is a placeholder in the reference: it
ignores the transaction and returns "address1". -/
def getTxExecutingAddress (tx : Transaction) : List Nat :=
  strBytes "address1"

/-- `getAuthorisedAddresses` is a placeholder in the reference: it
returns the fixed list `["address1", "address2"]` and
`tx.GetChainletID()`. -/
def getAuthorisedAddresses (tx : Transaction) : List (List Nat) × ChainletID :=
  ([strBytes "address1", strBytes "address2"], tx.chainletID)

/-! ### The write batch and the extraction algorithm -/

/-- One `writeBatch.PutCF(cf, key, value)` call recorded in order.  All
puts of this file target the single indexes column family, so the
column-family handle is not modelled. -/
structure Put where
  key : List Nat
  value : List Nat
deriving DecidableEq, Repr

/-- `m[k] = append(m[k], v)` on a Go map, modelled as an
insertion-ordered association list. -/
def mapAppend {β : Type} (m : List (List Nat × List β)) (k : List Nat) (v : β) :
    List (List Nat × List β) :=
  match m with
  | [] => [(k, [v])]
  | (k1, vs) :: rest =>
    if k = k1 then (k1, vs ++ [v]) :: rest
    else (k1, vs) :: mapAppend rest k v

/-- The `switch tx.Type` statement of the transaction loop: for the two
deployment types, append the chainlet identifier under every authorized
address; otherwise leave the map unchanged. -/
def accumulateChainletIDs (tx : Transaction)
    (cidMap : List (List Nat × List ChainletID)) :
    List (List Nat × List ChainletID) :=
  match tx.type with
  | TxType.CHAINLET_NEW | TxType.CHAINLET_UPDATE =>
    let acs := getAuthorisedAddresses tx
    acs.1.foldl (fun m a => mapAppend m a acs.2) cidMap
  | _ => cidMap

/-- The `for txIndex, tx := range transactions` loop of
`addIndexDataForPersistence`: emits one GUID put per transaction,
accumulates the executing-address map and (for deployment-type
transactions) the authorized-address map of chainlet identifiers. -/
def txFold (blockNumber : Nat) :
    List Transaction → Nat → List Put → List (List Nat × List Nat) →
    List (List Nat × List ChainletID) →
    List Put × List (List Nat × List Nat) × List (List Nat × List ChainletID)
  | [], _, writeBatch, txMap, cidMap => (writeBatch, txMap, cidMap)
  | tx :: rest, txIndex, writeBatch, txMap, cidMap =>
    let writeBatch := writeBatch ++
      [⟨encodeTxGUIDKey (getTxGUIDBytes tx), encodeBlockNumTxIndex blockNumber txIndex⟩]
    let txMap := mapAppend txMap (getTxExecutingAddress tx) txIndex
    let cidMap := accumulateChainletIDs tx cidMap
    txFold blockNumber rest (txIndex + 1) writeBatch txMap cidMap

/-- `addIndexDataForPersistence`: appends the Hash→Number put, runs the
transaction loop, then emits one Address→TxList put per entry of the
executing-address map.  The accumulated chainlet map is dropped and the
function ends with `return nil`.  (Go iterates the map in an
unspecified order; the association list fixes insertion order, which is
immaterial here because the reference address accessor is constant, so
the map never holds more than one entry.) -/
def addIndexDataForPersistence (block : Block) (blockNumber : Nat) (blockHash : List Nat)
    (writeBatch : List Put) : Except String (List Put) :=
  let writeBatch := writeBatch ++
    [⟨encodeBlockHashKey blockHash, encodeBlockNumber blockNumber⟩]
  let res := txFold blockNumber block.transactions 0 writeBatch [] []
  let writeBatch := res.2.1.foldl
    (fun wb e => wb ++
      [⟨encodeAddressBlockNumCompositeKey e.1 blockNumber, encodeListTxIndexes e.2⟩])
    res.1
  Except.ok writeBatch

/-! ### The store boundary and the query functions -/

/-- Store-level errors: a query that finds no value fails with
`notFound`, every other engine failure is a generic store error. -/
inductive StoreErr where
  | notFound
  | storeError (msg : String)
deriving DecidableEq, Repr

/-- Modelled from the spec: the package openchain/db (not among the
given sources) exposes the indexes column family as a point-readable
key-value map; `GetFromIndexesCF` fails with `NotFound` when the key is
absent, distinguishable from any other store error. -/
structure OpenchainDB where
  indexesCF : List Nat → Option (List Nat)

/-- Modelled from the spec: point read against the indexes column
family. -/
def OpenchainDB.GetFromIndexesCF (db : OpenchainDB) (key : List Nat) :
    Except StoreErr (List Nat) :=
  match db.indexesCF key with
  | some v => Except.ok v
  | none => Except.error StoreErr.notFound

/-- `fetchBlockNumberByBlockHashFromDB`: on a store error returns
`(0, err)`, otherwise decodes the stored value and returns it with a
nil error. -/
def fetchBlockNumberByBlockHashFromDB (db : OpenchainDB) (blockHash : List Nat) :
    Except StoreErr Nat :=
  match db.GetFromIndexesCF (encodeBlockHashKey blockHash) with
  | Except.error e => Except.error e
  | Except.ok blockNumberBytes => Except.ok (decodeBlockNumber blockNumberBytes)

/-- `fetchTransactionIndexByGUIDFromDB`: point read by GUID key, then
the two-varint location decoder; its decode errors surface to the
caller as store-level malformed-value failures. -/
def fetchTransactionIndexByGUIDFromDB (db : OpenchainDB) (txGUID : List Nat) :
    Except (StoreErr ⊕ DecodeErr) (Nat × Nat) :=
  match db.GetFromIndexesCF (encodeTxGUIDKey txGUID) with
  | Except.error e => Except.error (Sum.inl e)
  | Except.ok bytes =>
    match decodeBlockNumTxIndex bytes with
    | Except.error e => Except.error (Sum.inr e)
    | Except.ok loc => Except.ok loc

/-! ### The synchronous indexer variant -/

/-- `blockchainIndexerSync` is an empty struct: the variant holds no
state at all. -/
structure blockchainIndexerSync where
deriving DecidableEq, Repr

def newBlockchainIndexerSync : blockchainIndexerSync := {}

def blockchainIndexerSync.isSynchronous (indexer : blockchainIndexerSync) : Bool :=
  true

def blockchainIndexerSync.start (indexer : blockchainIndexerSync) : Option String :=
  none

def blockchainIndexerSync.createIndexesSync (indexer : blockchainIndexerSync)
    (block : Block) (blockNumber : Nat) (blockHash : List Nat) (writeBatch : List Put) :
    Except String (List Put) :=
  addIndexDataForPersistence block blockNumber blockHash writeBatch

/-- `createIndexesAsync` on the synchronous variant:
`return fmt.Errorf("Method not applicable")`. -/
def blockchainIndexerSync.createIndexesAsync (indexer : blockchainIndexerSync)
    (block : Block) (blockNumber : Nat) (blockHash : List Nat) : Option String :=
  some "Method not applicable"

def blockchainIndexerSync.fetchBlockNumberByBlockHash (indexer : blockchainIndexerSync)
    (db : OpenchainDB) (blockHash : List Nat) : Except StoreErr Nat :=
  fetchBlockNumberByBlockHashFromDB db blockHash

def blockchainIndexerSync.fetchTransactionIndexByGUID (indexer : blockchainIndexerSync)
    (db : OpenchainDB) (txGUID : List Nat) : Except (StoreErr ⊕ DecodeErr) (Nat × Nat) :=
  fetchTransactionIndexByGUIDFromDB db txGUID

def blockchainIndexerSync.stop (indexer : blockchainIndexerSync) : Unit :=
  ()

/-! ### Closed form of the extraction algorithm -/

theorem mapAppend_nil {β : Type} (k : List Nat) (v : β) :
    mapAppend ([] : List (List Nat × List β)) k v = [(k, [v])] := rfl

theorem mapAppend_single {β : Type} (k : List Nat) (l : List β) (v : β) :
    mapAppend [(k, l)] k v = [(k, l ++ [v])] := by
  simp [mapAppend]

theorem txFold_spec (blockNumber : Nat) (txs : List Transaction) :
    ∀ (txIndex : Nat) (wb : List Put) (l : List Nat)
      (cm : List (List Nat × List ChainletID)),
      ∃ cm1,
        txFold blockNumber txs txIndex wb [(strBytes "address1", l)] cm =
          (wb ++ (List.range' txIndex txs.length).map
            (fun j => ⟨encodeTxGUIDKey (strBytes "TODO:Fetch guid from Tx"),
                       encodeBlockNumTxIndex blockNumber j⟩),
           [(strBytes "address1", l ++ List.range' txIndex txs.length)], cm1) := by
  induction txs with
  | nil =>
    intro txIndex wb l cm
    exact ⟨cm, by simp [txFold]⟩
  | cons tx rest ih =>
    intro txIndex wb l cm
    obtain ⟨cm1, hrec⟩ := ih (txIndex + 1)
      (wb ++ [⟨encodeTxGUIDKey (getTxGUIDBytes tx),
               encodeBlockNumTxIndex blockNumber txIndex⟩])
      (l ++ [txIndex]) (accumulateChainletIDs tx cm)
    refine ⟨cm1, ?_⟩
    rw [txFold]
    simp only [getTxExecutingAddress, mapAppend_single]
    rw [hrec]
    simp [getTxGUIDBytes, List.range'_succ, List.append_assoc]

theorem addIndexDataForPersistence_spec (block : Block) (blockNumber : Nat)
    (blockHash : List Nat) (writeBatch : List Put) :
    addIndexDataForPersistence block blockNumber blockHash writeBatch =
      Except.ok (writeBatch
        ++ [⟨encodeBlockHashKey blockHash, encodeBlockNumber blockNumber⟩]
        ++ (List.range block.transactions.length).map
            (fun j => ⟨encodeTxGUIDKey (strBytes "TODO:Fetch guid from Tx"),
                       encodeBlockNumTxIndex blockNumber j⟩)
        ++ (if block.transactions.length = 0 then []
            else [⟨encodeAddressBlockNumCompositeKey (strBytes "address1") blockNumber,
                   encodeListTxIndexes (List.range block.transactions.length)⟩])) := by
  cases hb : block.transactions with
  | nil =>
    simp [addIndexDataForPersistence, hb, txFold]
  | cons tx rest =>
    rw [addIndexDataForPersistence, hb]
    rw [txFold]
    simp only [getTxExecutingAddress, mapAppend_nil]
    obtain ⟨cm1, hrec⟩ := txFold_spec blockNumber rest (0 + 1)
      ((writeBatch ++ [⟨encodeBlockHashKey blockHash, encodeBlockNumber blockNumber⟩])
        ++ [⟨encodeTxGUIDKey (getTxGUIDBytes tx),
             encodeBlockNumTxIndex blockNumber 0⟩])
      [0] (accumulateChainletIDs tx [])
    simp only [hrec]
    have hr : (0 : Nat) :: List.range' 1 rest.length = List.range (rest.length + 1) := by
      rw [List.range_eq_range', List.range'_succ]
    have hlen : (tx :: rest).length = rest.length + 1 := rfl
    simp only [hlen, List.foldl]
    have hifne : (rest.length + 1 = 0) = False := by simp
    rw [if_neg (by omega : ¬ rest.length + 1 = 0)]
    rw [← hr]
    simp [getTxGUIDBytes, List.range'_succ, List.append_assoc]

/-! ### Helper facts for the claim theorems -/

theorem head_encodeBlockHashKey (blockHash : List Nat) :
    (encodeBlockHashKey blockHash).head? = some prefixBlockHashKey := rfl

theorem head_encodeTxGUIDKey (guidBytes : List Nat) :
    (encodeTxGUIDKey guidBytes).head? = some prefixTxGUIDKey := rfl

theorem head_encodeAddressBlockNumCompositeKey (address : List Nat) (blockNumber : Nat) :
    (encodeAddressBlockNumCompositeKey address blockNumber).head? =
      some prefixAddressBlockNumCompositeKey := rfl

/-- The batch delta produced for a block with `k` transactions (the
reference accessors are constant, so the delta depends only on `k`). -/
def indexDelta (blockNumber : Nat) (blockHash : List Nat) (k : Nat) : List Put :=
  [⟨encodeBlockHashKey blockHash, encodeBlockNumber blockNumber⟩]
    ++ (List.range k).map
        (fun j => ⟨encodeTxGUIDKey (strBytes "TODO:Fetch guid from Tx"),
                   encodeBlockNumTxIndex blockNumber j⟩)
    ++ (if k = 0 then []
        else [⟨encodeAddressBlockNumCompositeKey (strBytes "address1") blockNumber,
               encodeListTxIndexes (List.range k)⟩])

theorem addIndexDataForPersistence_delta (block : Block) (blockNumber : Nat)
    (blockHash : List Nat) (writeBatch : List Put) :
    addIndexDataForPersistence block blockNumber blockHash writeBatch =
      Except.ok (writeBatch ++ indexDelta blockNumber blockHash block.transactions.length) := by
  rw [addIndexDataForPersistence_spec, indexDelta]
  simp [List.append_assoc]

theorem filter_indexDelta_addr (blockNumber : Nat) (blockHash : List Nat) (k : Nat)
    (hk : k ≠ 0) :
    (indexDelta blockNumber blockHash k).filter
        (fun p => p.key.head? == some prefixAddressBlockNumCompositeKey) =
      [⟨encodeAddressBlockNumCompositeKey (strBytes "address1") blockNumber,
        encodeListTxIndexes (List.range k)⟩] := by
  rw [indexDelta, if_neg hk]
  rw [List.filter_append, List.filter_append, List.filter_map]
  have h1 : (List.filter (fun p => p.key.head? == some prefixAddressBlockNumCompositeKey)
      [(⟨encodeBlockHashKey blockHash, encodeBlockNumber blockNumber⟩ : Put)]) = [] := by
    simp [List.filter, head_encodeBlockHashKey, prefixBlockHashKey,
      prefixAddressBlockNumCompositeKey]
  have h2 : (List.filter ((fun p => p.key.head? == some prefixAddressBlockNumCompositeKey) ∘
      (fun j => (⟨encodeTxGUIDKey (strBytes "TODO:Fetch guid from Tx"),
                  encodeBlockNumTxIndex blockNumber j⟩ : Put))) (List.range k)) = [] := by
    simp [Function.comp, head_encodeTxGUIDKey, prefixTxGUIDKey,
      prefixAddressBlockNumCompositeKey]
  have h3 : (List.filter (fun p => p.key.head? == some prefixAddressBlockNumCompositeKey)
      [(⟨encodeAddressBlockNumCompositeKey (strBytes "address1") blockNumber,
         encodeListTxIndexes (List.range k)⟩ : Put)]) =
      [⟨encodeAddressBlockNumCompositeKey (strBytes "address1") blockNumber,
        encodeListTxIndexes (List.range k)⟩] := by
    simp [List.filter, head_encodeAddressBlockNumCompositeKey]
  rw [h1, h2, h3]
  simp

theorem dedup_replicate {α : Type _} [DecidableEq α] (a : α) :
    ∀ n : Nat, n ≠ 0 → (List.replicate n a).dedup = [a] := by
  intro n
  induction n with
  | zero =>
    intro h
    exact absurd rfl h
  | succ n ih =>
    intro _
    cases hn : n with
    | zero =>
      rw [List.replicate_succ, List.replicate_zero,
        List.dedup_cons_of_not_mem (List.not_mem_nil a), List.dedup_nil]
    | succ m =>
      rw [List.replicate_succ, List.dedup_cons_of_mem (by simp [List.mem_replicate])]
      rw [← hn]
      exact ih (by omega)

/-! ### Claim theorems -/

/-- Claim C1: for every uint64 block number n,
decodeBlockNumber (encodeBlockNumber n) returns n; and for every pair of
uint64 values (b, i), decodeBlockNumTxIndex (encodeBlockNumTxIndex b i)
returns (b, i) with no error. -/
theorem claim_C1_roundtrip (n b i : Nat)
    (hn : n < 2 ^ 64) (hb : b < 2 ^ 64) (hi : i < 2 ^ 64) :
    decodeBlockNumber (encodeBlockNumber n) = n ∧
    decodeBlockNumTxIndex (encodeBlockNumTxIndex b i) = Except.ok (b, i) := by
  constructor
  · rw [encodeBlockNumber, decodeBlockNumber]
    exact decodeVarint_encode hn
  · have h1 : bufferDecodeVarint (encodeBlockNumTxIndex b i) =
        Except.ok (b, encodeVarint i) := by
      rw [encodeBlockNumTxIndex]
      simp only [List.nil_append]
      exact bufferDecodeVarint_encode hb _
    have h2 : bufferDecodeVarint (encodeVarint i) = Except.ok (i, []) := by
      have h := bufferDecodeVarint_encode hi ([] : List Nat)
      rwa [List.append_nil] at h
    simp only [decodeBlockNumTxIndex, h1, h2]

theorem claim_C1_roundtrip_witness :
    (5 : Nat) < 2 ^ 64 ∧ (300 : Nat) < 2 ^ 64 ∧ (7 : Nat) < 2 ^ 64 ∧
    decodeBlockNumber (encodeBlockNumber 5) = 5 ∧
    decodeBlockNumTxIndex (encodeBlockNumTxIndex 300 7) = Except.ok (300, 7) :=
  ⟨by norm_num, by norm_num, by norm_num,
   (claim_C1_roundtrip 5 300 7 (by norm_num) (by norm_num) (by norm_num)).1,
   (claim_C1_roundtrip 5 300 7 (by norm_num) (by norm_num) (by norm_num)).2⟩

/-- A store whose only entry is a malformed (truncated-varint) value
under the hash key of block hash [5]. -/
def dbMalformed : OpenchainDB :=
  ⟨fun k => if k = encodeBlockHashKey [5] then some [128] else none⟩

/-- Claim C2 counterexample: on the truncated buffer [0x80] the varint
decoder signals failure (it consumes 0 bytes), yet decodeBlockNumber
returns the block number 0 with no error, and
fetchBlockNumberByBlockHashFromDB hands that 0 to the caller as a
success value. -/
theorem claim_C2_counterexample :
    decodeBlockNumber [128] = 0 ∧ (decodeVarint [128]).2 = 0 ∧
    fetchBlockNumberByBlockHashFromDB dbMalformed [5] = Except.ok 0 :=
  ⟨rfl, rfl, rfl⟩

/-- Claim C2 (amended): for every buffer on which the varint decoder
fails (signalled by a consumed-byte count of 0), decodeBlockNumber
discards the failure signal and returns the default block number 0, and
a stored malformed value is returned by
fetchBlockNumberByBlockHashFromDB as the success value 0 rather than a
MalformedValue error. -/
theorem claim_C2_silent_zero (bytes : List Nat) (db : OpenchainDB) (blockHash : List Nat)
    (hfail : (decodeVarint bytes).2 = 0)
    (hstored : db.indexesCF (encodeBlockHashKey blockHash) = some bytes) :
    decodeBlockNumber bytes = 0 ∧
    fetchBlockNumberByBlockHashFromDB db blockHash = Except.ok 0 := by
  rw [decodeVarint] at hfail
  have h0 : decodeVarintAux bytes 0 0 0 = (0, 0) :=
    decodeVarintAux_snd_zero bytes 0 0 0 hfail
  have hdec : decodeBlockNumber bytes = 0 := by
    rw [decodeBlockNumber, decodeVarint, h0]
  refine ⟨hdec, ?_⟩
  simp only [fetchBlockNumberByBlockHashFromDB, OpenchainDB.GetFromIndexesCF, hstored, hdec]

theorem claim_C2_silent_zero_witness :
    decodeBlockNumber [128] = 0 ∧
    fetchBlockNumberByBlockHashFromDB dbMalformed [5] = Except.ok 0 :=
  claim_C2_silent_zero [128] dbMalformed [5] rfl rfl

/-- A store holding no key at all. -/
def dbEmpty : OpenchainDB := ⟨fun _ => none⟩

/-- Claim C3: for every block hash whose key is absent from the store,
fetchBlockNumberByBlockHash fails with NotFound, an error distinct from
every generic store error, and never returns a block number (in
particular not 0) as a success value. -/
theorem claim_C3_notFound (indexer : blockchainIndexerSync) (db : OpenchainDB)
    (blockHash : List Nat)
    (habsent : db.indexesCF (encodeBlockHashKey blockHash) = none) :
    indexer.fetchBlockNumberByBlockHash db blockHash = Except.error StoreErr.notFound ∧
    (∀ v : Nat, indexer.fetchBlockNumberByBlockHash db blockHash ≠ Except.ok v) ∧
    (∀ msg : String, (StoreErr.notFound : StoreErr) ≠ StoreErr.storeError msg) := by
  have h : indexer.fetchBlockNumberByBlockHash db blockHash =
      Except.error StoreErr.notFound := by
    simp only [blockchainIndexerSync.fetchBlockNumberByBlockHash,
      fetchBlockNumberByBlockHashFromDB, OpenchainDB.GetFromIndexesCF, habsent]
  refine ⟨h, ?_, ?_⟩
  · intro v hv
    rw [h] at hv
    exact Except.noConfusion hv
  · intro msg hmsg
    exact StoreErr.noConfusion hmsg

theorem claim_C3_notFound_witness :
    newBlockchainIndexerSync.fetchBlockNumberByBlockHash dbEmpty [1, 2, 3] =
      Except.error StoreErr.notFound :=
  (claim_C3_notFound newBlockchainIndexerSync dbEmpty [1, 2, 3] rfl).1

/-- Claim C4: for all inputs, the three key encoders produce pairwise
distinct outputs, because each family starts with its own prefix byte
(1, 2, 3). -/
theorem claim_C4_key_disjoint (blockHash guidBytes address : List Nat) (blockNumber : Nat) :
    encodeBlockHashKey blockHash ≠ encodeTxGUIDKey guidBytes ∧
    encodeBlockHashKey blockHash ≠ encodeAddressBlockNumCompositeKey address blockNumber ∧
    encodeTxGUIDKey guidBytes ≠ encodeAddressBlockNumCompositeKey address blockNumber := by
  refine ⟨fun h => ?_, fun h => ?_, fun h => ?_⟩ <;>
    have hh := congrArg List.head? h
  · rw [head_encodeBlockHashKey, head_encodeTxGUIDKey] at hh
    exact absurd (Option.some.inj hh) (by norm_num [prefixBlockHashKey, prefixTxGUIDKey])
  · rw [head_encodeBlockHashKey, head_encodeAddressBlockNumCompositeKey] at hh
    exact absurd (Option.some.inj hh)
      (by norm_num [prefixBlockHashKey, prefixAddressBlockNumCompositeKey])
  · rw [head_encodeTxGUIDKey, head_encodeAddressBlockNumCompositeKey] at hh
    exact absurd (Option.some.inj hh)
      (by norm_num [prefixTxGUIDKey, prefixAddressBlockNumCompositeKey])

/-- Claim C6: a block with an empty transaction list yields exactly one
put, the Hash→Number entry, and no GUID→Location or Address→TxList
entries. -/
theorem claim_C6_empty_block (block : Block) (blockNumber : Nat) (blockHash : List Nat)
    (writeBatch : List Put) (hempty : block.transactions = []) :
    addIndexDataForPersistence block blockNumber blockHash writeBatch =
      Except.ok (writeBatch ++
        [⟨encodeBlockHashKey blockHash, encodeBlockNumber blockNumber⟩]) := by
  rw [addIndexDataForPersistence_delta, hempty]
  simp [indexDelta]

theorem claim_C6_empty_block_witness :
    addIndexDataForPersistence (Block.mk []) 4 [9] [] =
      Except.ok ([] ++ [⟨encodeBlockHashKey [9], encodeBlockNumber 4⟩]) :=
  claim_C6_empty_block (Block.mk []) 4 [9] [] rfl

/-- Claim C7: a location buffer holding one complete varint followed by
bytes on which the second varint read fails is rejected by
decodeBlockNumTxIndex with the decode error, and is never a success
with a zero-filled second component. -/
theorem claim_C7_truncated_location (b : Nat) (rest : List Nat) (e : DecodeErr)
    (hb : b < 2 ^ 64) (hfail : bufferDecodeVarint rest = Except.error e) :
    decodeBlockNumTxIndex (encodeVarint b ++ rest) = Except.error e ∧
    ∀ p : Nat × Nat, decodeBlockNumTxIndex (encodeVarint b ++ rest) ≠ Except.ok p := by
  have h1 : bufferDecodeVarint (encodeVarint b ++ rest) = Except.ok (b, rest) :=
    bufferDecodeVarint_encode hb rest
  have h2 : decodeBlockNumTxIndex (encodeVarint b ++ rest) = Except.error e := by
    simp only [decodeBlockNumTxIndex, h1, hfail]
  refine ⟨h2, fun p hp => ?_⟩
  rw [h2] at hp
  exact Except.noConfusion hp

theorem claim_C7_truncated_location_witness :
    (7 : Nat) < 2 ^ 64 ∧
    bufferDecodeVarint [128] = Except.error DecodeErr.unexpectedEOF ∧
    decodeBlockNumTxIndex (encodeVarint 7 ++ [128]) =
      Except.error DecodeErr.unexpectedEOF :=
  ⟨by norm_num, rfl,
   (claim_C7_truncated_location 7 [128] DecodeErr.unexpectedEOF (by norm_num) rfl).1⟩

/-- Claim C8: on the synchronous variant createIndexesAsync always
fails with the not-applicable error, isSynchronous returns true, start
returns the nil error and stop is a no-op; the variant carries no state
(its record has no fields). -/
theorem claim_C8_sync_variant (indexer : blockchainIndexerSync) (block : Block)
    (blockNumber : Nat) (blockHash : List Nat) :
    indexer.createIndexesAsync block blockNumber blockHash =
      some "Method not applicable" ∧
    indexer.isSynchronous = true ∧
    indexer.start = none ∧
    indexer.stop = () ∧
    indexer = newBlockchainIndexerSync :=
  ⟨rfl, rfl, rfl, rfl, rfl⟩

/-- Claim C5: when several transactions share one executing address
(in the reference every transaction does, since the accessor is the
constant "address1"), extraction emits one Address→TxList entry per
distinct executing address, whose value encodes the ordered list of
that address's transaction positions — not one entry per transaction. -/
theorem claim_C5_one_entry_per_address (block : Block) (blockNumber : Nat)
    (blockHash : List Nat) (writeBatch : List Put)
    (hne : block.transactions ≠ []) :
    (block.transactions.map getTxExecutingAddress).dedup = [strBytes "address1"] ∧
    ∃ delta,
      addIndexDataForPersistence block blockNumber blockHash writeBatch =
        Except.ok (writeBatch ++ delta) ∧
      delta.filter (fun p => p.key.head? == some prefixAddressBlockNumCompositeKey) =
        [⟨encodeAddressBlockNumCompositeKey (strBytes "address1") blockNumber,
          encodeListTxIndexes (List.range block.transactions.length)⟩] := by
  have hk : block.transactions.length ≠ 0 := by
    intro h
    exact hne (List.length_eq_zero.mp h)
  constructor
  · have hmap : block.transactions.map getTxExecutingAddress =
        List.replicate block.transactions.length (strBytes "address1") := by
      rw [show getTxExecutingAddress = fun _ : Transaction => strBytes "address1" from rfl,
        List.map_const']
    rw [hmap]
    exact dedup_replicate _ _ hk
  · exact ⟨indexDelta blockNumber blockHash block.transactions.length,
      addIndexDataForPersistence_delta _ _ _ _,
      filter_indexDelta_addr blockNumber blockHash _ hk⟩

def tx0 : Transaction := ⟨[], [], TxType.other, ⟨0⟩⟩

def block3 : Block := ⟨[tx0, tx0, tx0]⟩

theorem claim_C5_one_entry_per_address_witness :
    (block3.transactions.map getTxExecutingAddress).dedup = [strBytes "address1"] ∧
    ∃ delta,
      addIndexDataForPersistence block3 7 [9] [] = Except.ok ([] ++ delta) ∧
      delta.filter (fun p => p.key.head? == some prefixAddressBlockNumCompositeKey) =
        [⟨encodeAddressBlockNumCompositeKey (strBytes "address1") 7,
          encodeListTxIndexes (List.range block3.transactions.length)⟩] :=
  claim_C5_one_entry_per_address block3 7 [9] [] (by simp [block3])

/-- Claim C9: every put the extraction adds belongs to one of the three
key families (prefix bytes 1, 2, 3); the function returns no error; and
the accumulated chainlet map contributes nothing — the result depends
on the transactions only through their count, so transaction types and
chainlet identifiers never reach the batch or the return value. -/
theorem claim_C9_frame (block : Block) (blockNumber : Nat)
    (blockHash : List Nat) (writeBatch : List Put) :
    (∃ delta,
      addIndexDataForPersistence block blockNumber blockHash writeBatch =
        Except.ok (writeBatch ++ delta) ∧
      ∀ p ∈ delta,
        p.key.head? = some prefixBlockHashKey ∨
        p.key.head? = some prefixTxGUIDKey ∨
        p.key.head? = some prefixAddressBlockNumCompositeKey) ∧
    (∀ block2 : Block, block2.transactions.length = block.transactions.length →
      addIndexDataForPersistence block2 blockNumber blockHash writeBatch =
        addIndexDataForPersistence block blockNumber blockHash writeBatch) := by
  constructor
  · refine ⟨indexDelta blockNumber blockHash block.transactions.length,
      addIndexDataForPersistence_delta _ _ _ _, ?_⟩
    intro p hp
    rw [indexDelta] at hp
    rcases List.mem_append.mp hp with hp1 | hp3
    · rcases List.mem_append.mp hp1 with hp0 | hp2
      · left
        have hpe := List.mem_singleton.mp hp0
        subst hpe
        exact head_encodeBlockHashKey blockHash
      · right
        left
        rcases List.mem_map.mp hp2 with ⟨j, hj, hpj⟩
        rw [← hpj]
        exact head_encodeTxGUIDKey _
    · right
      right
      by_cases hk : block.transactions.length = 0
      · rw [if_pos hk] at hp3
        exact absurd hp3 (List.not_mem_nil p)
      · rw [if_neg hk] at hp3
        have hpe := List.mem_singleton.mp hp3
        subst hpe
        exact head_encodeAddressBlockNumCompositeKey _ _
  · intro block2 hlen
    rw [addIndexDataForPersistence_delta, addIndexDataForPersistence_delta, hlen]

/-- Claim C10: the reference GUID and executing-address accessors are
constant (the fixed bytes of "TODO:Fetch guid from Tx" and "address1"
for every transaction); hence in a block with two or more transactions
every GUID→Location put targets the same key (a later put supersedes
the earlier ones under last-write-wins) and exactly one Address→TxList
entry is emitted, whatever the transactions' actual fields hold. -/
theorem claim_C10_constant_stubs (t1 t2 : Transaction) :
    getTxGUIDBytes t1 = getTxGUIDBytes t2 ∧
    getTxGUIDBytes t1 = strBytes "TODO:Fetch guid from Tx" ∧
    getTxExecutingAddress t1 = getTxExecutingAddress t2 ∧
    getTxExecutingAddress t1 = strBytes "address1" ∧
    ∀ (block : Block) (blockNumber : Nat) (blockHash : List Nat) (writeBatch : List Put),
      2 ≤ block.transactions.length →
      ∃ delta,
        addIndexDataForPersistence block blockNumber blockHash writeBatch =
          Except.ok (writeBatch ++ delta) ∧
        (∀ p ∈ delta, p.key.head? = some prefixTxGUIDKey →
          p.key = encodeTxGUIDKey (strBytes "TODO:Fetch guid from Tx")) ∧
        (delta.filter
          (fun p => p.key.head? == some prefixAddressBlockNumCompositeKey)).length = 1 := by
  refine ⟨rfl, rfl, rfl, rfl, ?_⟩
  intro block blockNumber blockHash writeBatch h2
  refine ⟨indexDelta blockNumber blockHash block.transactions.length,
    addIndexDataForPersistence_delta _ _ _ _, ?_, ?_⟩
  · intro p hp hkey
    rw [indexDelta] at hp
    rcases List.mem_append.mp hp with hp1 | hp3
    · rcases List.mem_append.mp hp1 with hp0 | hp2
      · have hpe := List.mem_singleton.mp hp0
        subst hpe
        rw [head_encodeBlockHashKey] at hkey
        exact absurd (Option.some.inj hkey)
          (by norm_num [prefixBlockHashKey, prefixTxGUIDKey])
      · rcases List.mem_map.mp hp2 with ⟨j, hj, hpj⟩
        rw [← hpj]
    · by_cases hk : block.transactions.length = 0
      · rw [if_pos hk] at hp3
        exact absurd hp3 (List.not_mem_nil p)
      · rw [if_neg hk] at hp3
        have hpe := List.mem_singleton.mp hp3
        subst hpe
        rw [head_encodeAddressBlockNumCompositeKey] at hkey
        exact absurd (Option.some.inj hkey)
          (by norm_num [prefixAddressBlockNumCompositeKey, prefixTxGUIDKey])
  · rw [filter_indexDelta_addr _ _ _ (by omega)]
    rfl

def block2tx : Block := ⟨[tx0, tx0]⟩

theorem claim_C10_constant_stubs_witness :
    ∃ delta,
      addIndexDataForPersistence block2tx 7 [9] [] = Except.ok ([] ++ delta) ∧
      (∀ p ∈ delta, p.key.head? = some prefixTxGUIDKey →
        p.key = encodeTxGUIDKey (strBytes "TODO:Fetch guid from Tx")) ∧
      (delta.filter
        (fun p => p.key.head? == some prefixAddressBlockNumCompositeKey)).length = 1 :=
  (claim_C10_constant_stubs tx0 tx0).2.2.2.2 block2tx 7 [9] [] (by simp [block2tx])
